import Mathlib

/-!
# A verification of the LRC lyric parser (`src/js/lyrics-parser.js`)

Shallow embedding of the `LyricsParser` class: strings are `List Char`,
JS numbers carrying lyric times are `ℚ`, the two regular expressions of
`parseLRC` are modelled as total matching functions with ECMAScript
semantics (leftmost match, `.` excludes line terminators), and the
mutable object state is threaded explicitly as a `ParserState`.
-/

namespace GiftSite

/-- The whitespace characters stripped by `String.prototype.trim`
(ASCII whitespace, NBSP, BOM and the Unicode line separators cover
every character this data can contain). -/
def isJsSpace (c : Char) : Bool :=
  c = ' ' || c = '\t' || c = '\n' || c = '\r' || c = '\x0b' || c = '\x0c' ||
  c = '\u00A0' || c = '\uFEFF' || c = '\u2028' || c = '\u2029'

/-- `s.trim()`: drop whitespace from both ends. -/
def jsTrim (l : List Char) : List Char :=
  ((l.dropWhile isJsSpace).reverse.dropWhile isJsSpace).reverse

/-- `\w` of an ECMAScript regex: `[A-Za-z0-9_]`. -/
def isWordChar (c : Char) : Bool :=
  c.isAlpha || c.isDigit || c = '_'

/-- `.` of an ECMAScript regex without the `s` flag: any character
except a line terminator. -/
def isRegexDot (c : Char) : Bool :=
  !(c = '\n' || c = '\r' || c = '\u2028' || c = '\u2029')

/-- Whole-line match of `/^\[(\w+):(.+)\]$/` (the metadata pattern of
`parseLRC`), returning the two capture groups `(key, value)`.  The
greedy `\w+` takes the maximal run of word characters after `[`; the
greedy `(.+)` then reaches to the final `]`, which must end the line,
and must capture at least one character. -/
def matchMetadata : List Char → Option (List Char × List Char)
  | '[' :: rest =>
    if rest.takeWhile isWordChar ≠ [] ∧
        (rest.dropWhile isWordChar).head? = some ':' ∧
        2 ≤ (rest.dropWhile isWordChar).tail.length ∧
        (rest.dropWhile isWordChar).tail.getLast? = some ']' ∧
        (rest.dropWhile isWordChar).tail.dropLast.all isRegexDot
      then some (rest.takeWhile isWordChar, (rest.dropWhile isWordChar).tail.dropLast)
      else none
  | _ => none

/-- Match of `/\[(\d{2}):(\d{2})\.(\d{2})\](.*)$/` at the start of `l`:
the three two-digit capture groups and the trailing text.  `(.*)$`
must consume everything to the end of the line, so every remaining
character must be matchable by `.`. -/
def matchTimestampAt : List Char → Option (List Char × List Char × List Char × List Char)
  | '[' :: a :: b :: ':' :: c :: d :: '.' :: e :: f :: ']' :: rest =>
    if a.isDigit ∧ b.isDigit ∧ c.isDigit ∧ d.isDigit ∧ e.isDigit ∧ f.isDigit ∧
        rest.all isRegexDot
      then some ([a, b], [c, d], [e, f], rest)
      else none
  | _ => none

/-- The timestamp pattern is *not* anchored: `String.prototype.match`
returns the leftmost position where it matches. -/
def findTimestamp : List Char → Option (List Char × List Char × List Char × List Char)
  | [] => none
  | c :: rest =>
    match matchTimestampAt (c :: rest) with
    | some r => some r
    | none => findTimestamp rest

/-- `parseInt(s, 10)` on the captured strings, which are always pure
digit runs. -/
def parseDigits (l : List Char) : Nat :=
  l.foldl (fun a c => a * 10 + (c.toNat - 48)) 0

/-- `parseTimeToSeconds(minutes, seconds, centiseconds)`:
`min * 60 + sec + cs / 100`. -/
def parseTimeToSeconds (minutes seconds centiseconds : List Char) : ℚ :=
  (parseDigits minutes : ℚ) * 60 + (parseDigits seconds : ℚ) +
    (parseDigits centiseconds : ℚ) / 100

/-- One parsed lyric line: `{ time, text }`. -/
structure LyricLine where
  time : ℚ
  text : List Char
deriving DecidableEq, Repr

instance : Inhabited LyricLine := ⟨⟨0, []⟩⟩

/-- The `this.metadata` object: an insertion-ordered key/value map. -/
abbrev Metadata := List (List Char × List Char)

/-- JS property assignment `metadata[key] = value`: overwrite in place
when the key exists, append otherwise. -/
def setMeta (m : Metadata) (k v : List Char) : Metadata :=
  if m.any (fun p => decide (p.1 = k))
    then m.map (fun p => if p.1 = k then (k, v) else p)
    else m ++ [(k, v)]

/-- The mutable fields of a `LyricsParser` instance. -/
structure ParserState where
  lyrics : List LyricLine
  metadata : Metadata
  currentIndex : Int
deriving DecidableEq, Repr

/-- The freshly constructed parser. -/
def initState : ParserState := ⟨[], [], -1⟩

/-- Insert `x` after every already-placed line of strictly smaller time
and before the rest; with `sortLyrics` this is the stable ascending
sort `this.lyrics.sort((a, b) => a.time - b.time)` performs. -/
def insertLine (x : LyricLine) : List LyricLine → List LyricLine
  | [] => [x]
  | y :: ys => if y.time < x.time then y :: insertLine x ys else x :: y :: ys

/-- The stable sort by `time` ascending. -/
def sortLyrics : List LyricLine → List LyricLine
  | [] => []
  | x :: xs => insertLine x (sortLyrics xs)

/-- The body of the `for (const line of lines)` loop of `parseLRC`:
trim, skip blank lines, try the metadata pattern, then the timestamp
pattern (`text.trim() || ''` is just the trimmed text), else drop. -/
def parseLine (st : ParserState) (line : List Char) : ParserState :=
  let t := jsTrim line
  if t = [] then st
  else
    match matchMetadata t with
    | some (k, v) => { st with metadata := setMeta st.metadata k (jsTrim v) }
    | none =>
      match findTimestamp t with
      | some (mm, ss, cc, text) =>
        { st with lyrics := st.lyrics ++ [⟨parseTimeToSeconds mm ss cc, jsTrim text⟩] }
      | none => st

/-- `lrcContent.split('\n')`. -/
def splitLines (l : List Char) : List (List Char) :=
  l.splitOn '\n'

/-- `parseLRC(lrcContent)`.  The guard `if (!lrcContent || ...)` makes a
falsy argument — the empty string — return early without touching any
state; otherwise the three fields are reset, every line is processed,
and the collected lyrics are stable-sorted by time. -/
def parseLRC (st : ParserState) (content : List Char) : ParserState :=
  if content = [] then st
  else
    let collected := (splitLines content).foldl parseLine initState
    { collected with lyrics := sortLyrics collected.lyrics }

/-- The object returned by `getCurrentLyric`. -/
structure LyricMatch where
  text : List Char
  time : ℚ
  index : Int
  isNew : Bool
deriving DecidableEq, Repr

/-- The `for`/`break` scan of `getCurrentLyric`: `i` is the index of
the head of the remaining list, `acc` the `targetIndex` accumulated so
far; the first line with `time > t` breaks the loop. -/
def scanTarget (t : ℚ) : List LyricLine → Int → Int → Int
  | [], _, acc => acc
  | x :: xs, i, acc => if x.time ≤ t then scanTarget t xs (i + 1) i else acc

/-- `getCurrentLyric(currentTime)`: returns the match (if any) and the
state after the call (`this.currentIndex` is written only on the
successful branch). -/
def getCurrentLyric (st : ParserState) (t : ℚ) : Option LyricMatch × ParserState :=
  if st.lyrics.isEmpty then (none, st)
  else
    let targetIndex := scanTarget t st.lyrics 0 (-1)
    if 0 ≤ targetIndex then
      let line := st.lyrics.getD targetIndex.toNat default
      (some ⟨line.text, line.time, targetIndex, decide (targetIndex ≠ st.currentIndex)⟩,
       { st with currentIndex := targetIndex })
    else (none, st)

/-- `clear()`. -/
def clear (_st : ParserState) : ParserState := ⟨[], [], -1⟩

/-- `hasLyrics()`. -/
def hasLyrics (st : ParserState) : Bool := !st.lyrics.isEmpty

/-- Outcome of the external I/O done inside `loadFromURL`'s `try`
block: the `fetch` itself can reject, the response carries an `ok`
flag, and `response.text()` can reject (`body = none`). -/
inductive FetchOutcome where
  | netError
  | response (ok : Bool) (body : Option (List Char))
deriving DecidableEq, Repr

/-- A fetch failure in the sense of the spec: a network error or a
non-OK HTTP status. -/
def FetchOutcome.isFailure : FetchOutcome → Bool
  | .netError => true
  | .response ok _ => !ok

/-- `loadFromURL(url)` with the I/O outcome passed in explicitly: any
throw inside the `try` (network rejection, the explicit
`throw new Error` on `!response.ok`, body read failure) lands in the
`catch`, which calls `this.clear()` and returns `false`; on success the
body is parsed and `hasLyrics()` is returned. -/
def loadFromURL (st : ParserState) (o : FetchOutcome) : Bool × ParserState :=
  match o with
  | .netError => (false, clear st)
  | .response false _ => (false, clear st)
  | .response true none => (false, clear st)
  | .response true (some body) =>
    let st2 := parseLRC st body
    (hasLyrics st2, st2)

/-- Convenience: the character list of a string literal. -/
def strToChars (s : String) : List Char := s.data

/-- Spec vocabulary: the lyric list is ordered by ascending time. -/
@[reducible] def sortedByTime (l : List LyricLine) : Prop :=
  List.Pairwise (fun a b => a.time ≤ b.time) l

/-- Spec vocabulary: the predicate of the `getCurrentLyric` scan, as a
`Bool`-valued function usable with `List.takeWhile`. -/
def timeLE (t : ℚ) (x : LyricLine) : Bool := decide (x.time ≤ t)

/-- Spec vocabulary: the number of leading lines whose time is at most
`t`; on a sorted list this is the number of candidate lines. -/
def matchCount (t : ℚ) (ls : List LyricLine) : Nat :=
  (ls.takeWhile (timeLE t)).length

/-- Spec vocabulary: the cursor-independent components of a match. -/
def resolved (m : LyricMatch) : List Char × ℚ × Int :=
  (m.text, m.time, m.index)

/-- Spec vocabulary: the standard two-digit decimal rendering of
`n < 100`, as fed to the timestamp pattern. -/
def twoDigits (n : Nat) : List Char :=
  [Nat.digitChar (n / 10), Nat.digitChar (n % 10)]

/-- Spec vocabulary: the collected lyric lines of `parseLRC`, in input
order, before the final sort. -/
def collectedLyrics (content : List Char) : List LyricLine :=
  ((splitLines content).foldl parseLine initState).lyrics

section ProofLayer

attribute [local semireducible] Rat.add Rat.mul Rat.inv Rat.sub Rat.ofScientific

/-! ### Character classes -/

theorem isJsSpace_eq_false_of_isDigit {c : Char} (h : c.isDigit = true) :
    isJsSpace c = false := by
  by_contra hn
  rw [Bool.not_eq_false] at hn
  unfold isJsSpace at hn
  simp only [Bool.or_eq_true, decide_eq_true_eq] at hn
  rcases hn with ((((((((h1 | h1) | h1) | h1) | h1) | h1) | h1) | h1) | h1) | h1 <;>
    subst h1 <;> exact absurd h (by decide)

theorem isWordChar_of_isDigit {c : Char} (h : c.isDigit = true) :
    isWordChar c = true := by
  unfold isWordChar
  rw [h]
  simp

theorem isRegexDot_of_isDigit {c : Char} (h : c.isDigit = true) :
    isRegexDot c = true := by
  unfold isRegexDot
  rw [Bool.not_eq_true']
  by_contra hn
  rw [Bool.not_eq_false] at hn
  simp only [Bool.or_eq_true, decide_eq_true_eq] at hn
  rcases hn with ((h1 | h1) | h1) | h1 <;> subst h1 <;> exact absurd h (by decide)

theorem digitChar_isDigit {d : Nat} (h : d < 10) : (Nat.digitChar d).isDigit = true := by
  interval_cases d <;> decide

theorem digitChar_toNat {d : Nat} (h : d < 10) : (Nat.digitChar d).toNat = 48 + d := by
  interval_cases d <;> decide

theorem parseDigits_twoDigits {n : Nat} (h : n < 100) : parseDigits (twoDigits n) = n := by
  unfold twoDigits parseDigits
  simp only [List.foldl_cons, List.foldl_nil]
  rw [digitChar_toNat (by omega), digitChar_toNat (Nat.mod_lt _ (by omega))]
  omega

/-! ### The `getCurrentLyric` scan -/

theorem scanTarget_eq (t : ℚ) (ls : List LyricLine) : ∀ i : Int,
    scanTarget t ls i (i - 1) = i - 1 + (matchCount t ls : Int) := by
  induction ls with
  | nil => intro i; simp [scanTarget, matchCount]
  | cons x xs ih =>
    intro i
    by_cases h : x.time ≤ t
    · have h2 := ih (i + 1)
      rw [show i + 1 - 1 = i from by omega] at h2
      simp only [scanTarget, if_pos h, h2]
      unfold matchCount timeLE
      rw [List.takeWhile_cons_of_pos (by simpa using h)]
      simp only [List.length_cons]
      push_cast
      omega
    · simp only [scanTarget, if_neg h]
      unfold matchCount timeLE
      rw [List.takeWhile_cons_of_neg (by simpa using h)]
      simp

theorem scanTarget_start (t : ℚ) (ls : List LyricLine) :
    scanTarget t ls 0 (-1) = (matchCount t ls : Int) - 1 := by
  have h := scanTarget_eq t ls 0
  rw [show (0 : Int) - 1 = -1 from by omega] at h
  rw [h]
  omega

theorem matchCount_le_length (t : ℚ) (ls : List LyricLine) :
    matchCount t ls ≤ ls.length := by
  induction ls with
  | nil => simp [matchCount]
  | cons x xs ih =>
    unfold matchCount at ih ⊢
    rw [List.takeWhile_cons]
    by_cases h : timeLE t x
    · rw [if_pos h]
      simpa using ih
    · rw [if_neg h]
      simp

theorem time_le_of_lt_matchCount {t : ℚ} {ls : List LyricLine} : ∀ {j : Nat},
    j < matchCount t ls → (ls.getD j default).time ≤ t := by
  induction ls with
  | nil => intro j hj; simp [matchCount] at hj
  | cons x xs ih =>
    intro j hj
    unfold matchCount at hj
    rw [List.takeWhile_cons] at hj
    by_cases h : timeLE t x
    · rw [if_pos h] at hj
      simp only [List.length_cons] at hj
      cases j with
      | zero =>
        rw [List.getD_cons_zero]
        unfold timeLE at h
        exact of_decide_eq_true h
      | succ j =>
        rw [List.getD_cons_succ]
        exact ih (by unfold matchCount; omega)
    · rw [if_neg h] at hj
      simp at hj

theorem not_time_le_at_matchCount {t : ℚ} {ls : List LyricLine}
    (h : matchCount t ls < ls.length) :
    ¬ (ls.getD (matchCount t ls) default).time ≤ t := by
  induction ls with
  | nil => simp [matchCount] at h
  | cons x xs ih =>
    by_cases hx : timeLE t x
    · have hstep : matchCount t (x :: xs) = matchCount t xs + 1 := by
        unfold matchCount
        rw [List.takeWhile_cons_of_pos hx]
        simp
      rw [hstep] at h ⊢
      rw [List.getD_cons_succ]
      exact ih (by simp only [List.length_cons] at h; omega)
    · have h0 : matchCount t (x :: xs) = 0 := by
        unfold matchCount
        rw [List.takeWhile_cons_of_neg hx]
        simp
      rw [h0, List.getD_cons_zero]
      unfold timeLE at hx
      simpa using hx

theorem getD_eq_getElem' {α : Type} [Inhabited α] {l : List α} {j : Nat}
    (h : j < l.length) (d : α) : l.getD j d = l[j] := by
  rw [List.getD_eq_getElem?_getD, List.getElem?_eq_getElem h]
  rfl

theorem lt_time_of_matchCount_le {t : ℚ} {ls : List LyricLine} {j : Nat}
    (hs : sortedByTime ls) (h1 : matchCount t ls ≤ j) (h2 : j < ls.length) :
    t < (ls.getD j default).time := by
  have hmc : matchCount t ls < ls.length := Nat.lt_of_le_of_lt h1 h2
  have hb : t < (ls.getD (matchCount t ls) default).time :=
    lt_of_not_le (not_time_le_at_matchCount hmc)
  rcases Nat.eq_or_lt_of_le h1 with he | hl
  · rwa [he] at hb
  · unfold sortedByTime at hs
    have hR := List.pairwise_iff_getElem.mp hs (matchCount t ls) j hmc h2 hl
    rw [getD_eq_getElem' h2]
    rw [getD_eq_getElem' hmc] at hb
    exact lt_of_lt_of_le hb hR

theorem matchCount_eq_zero_iff {t : ℚ} {ls : List LyricLine} (hs : sortedByTime ls) :
    matchCount t ls = 0 ↔ ∀ l ∈ ls, t < l.time := by
  constructor
  · intro h0 l hl
    obtain ⟨j, hj, rfl⟩ := List.mem_iff_getElem.mp hl
    have hlt := lt_time_of_matchCount_le hs (h0 ▸ Nat.zero_le j) hj
    rwa [getD_eq_getElem' hj] at hlt
  · intro hall
    by_contra hne
    have hpos : 0 < matchCount t ls := Nat.pos_of_ne_zero hne
    have h1 := @time_le_of_lt_matchCount t ls 0 hpos
    have hlen : 0 < ls.length := lt_of_lt_of_le hpos (matchCount_le_length t ls)
    have h2 := hall (ls.getD 0 default) (by rw [getD_eq_getElem' hlen]; exact List.getElem_mem hlen)
    exact absurd h1 (not_le.mpr h2)

/-! ### The stable sort -/

theorem mem_insertLine {z x : LyricLine} {l : List LyricLine} :
    z ∈ insertLine x l ↔ z = x ∨ z ∈ l := by
  induction l with
  | nil => simp [insertLine]
  | cons y ys ih =>
    unfold insertLine
    by_cases h : y.time < x.time
    · rw [if_pos h]
      simp only [List.mem_cons, ih]
      tauto
    · rw [if_neg h]
      simp only [List.mem_cons]

theorem insertLine_sorted {x : LyricLine} : ∀ {l : List LyricLine},
    sortedByTime l → sortedByTime (insertLine x l) := by
  intro l
  induction l with
  | nil => intro _; simp [sortedByTime, insertLine]
  | cons y ys ih =>
    intro hl
    unfold sortedByTime at hl ⊢
    rw [List.pairwise_cons] at hl
    obtain ⟨hy, hys⟩ := hl
    unfold insertLine
    by_cases h : y.time < x.time
    · rw [if_pos h, List.pairwise_cons]
      refine ⟨?_, ih hys⟩
      intro z hz
      rcases mem_insertLine.mp hz with rfl | hz2
      · exact le_of_lt h
      · exact hy z hz2

    · rw [if_neg h, List.pairwise_cons]
      refine ⟨?_, List.pairwise_cons.mpr ⟨hy, hys⟩⟩
      intro z hz
      rcases List.mem_cons.mp hz with rfl | hz2
      · exact le_of_not_lt h
      · exact le_trans (le_of_not_lt h) (hy z hz2)

theorem sortLyrics_sorted (l : List LyricLine) : sortedByTime (sortLyrics l) := by
  induction l with
  | nil => unfold sortedByTime sortLyrics; simp
  | cons x xs ih =>
    unfold sortLyrics
    exact insertLine_sorted ih

theorem filter_insertLine_pos {x : LyricLine} {v : ℚ} {l : List LyricLine}
    (hx : x.time = v) :
    (insertLine x l).filter (fun e => decide (e.time = v)) =
      x :: l.filter (fun e => decide (e.time = v)) := by
  induction l with
  | nil =>
    unfold insertLine
    rw [List.filter_cons_of_pos (by simp [hx])]
  | cons y ys ih =>
    unfold insertLine
    by_cases h : y.time < x.time
    · have hy : y.time ≠ v := by
        intro he
        rw [he, ← hx] at h
        exact lt_irrefl x.time h
      rw [if_pos h]
      simp [List.filter_cons, hy, ih]
    · rw [if_neg h]
      simp [List.filter_cons, hx]

theorem filter_insertLine_neg {x : LyricLine} {v : ℚ} {l : List LyricLine}
    (hx : x.time ≠ v) :
    (insertLine x l).filter (fun e => decide (e.time = v)) =
      l.filter (fun e => decide (e.time = v)) := by
  induction l with
  | nil => simp [insertLine, hx]
  | cons y ys ih =>
    unfold insertLine
    by_cases h : y.time < x.time
    · rw [if_pos h]
      by_cases hy : y.time = v
      · simp [List.filter_cons, hy, ih]
      · simp [List.filter_cons, hy, ih]
    · rw [if_neg h]
      simp [List.filter_cons, hx]

theorem sortLyrics_stable (l : List LyricLine) (v : ℚ) :
    (sortLyrics l).filter (fun e => decide (e.time = v)) =
      l.filter (fun e => decide (e.time = v)) := by
  induction l with
  | nil => rfl
  | cons x xs ih =>
    unfold sortLyrics
    by_cases hx : x.time = v
    · rw [filter_insertLine_pos hx, ih]
      simp [List.filter_cons, hx]
    · rw [filter_insertLine_neg hx, ih]
      simp [List.filter_cons, hx]

/-! ### State preservation across parsing -/

theorem parseLine_currentIndex (st : ParserState) (line : List Char) :
    (parseLine st line).currentIndex = st.currentIndex := by
  simp only [parseLine]
  split
  · rfl
  · split
    · rfl
    · split
      · rfl
      · rfl

theorem foldl_parseLine_currentIndex (lines : List (List Char)) :
    ∀ st : ParserState, (lines.foldl parseLine st).currentIndex = st.currentIndex := by
  induction lines with
  | nil => intro st; rfl
  | cons l ls ih =>
    intro st
    rw [List.foldl_cons, ih, parseLine_currentIndex]

/-! ### The leftmost-match search -/

theorem findTimestamp_eq_none_iff {l : List Char} :
    findTimestamp l = none ↔ ∀ s : List Char, s <:+ l → matchTimestampAt s = none := by
  induction l with
  | nil =>
    constructor
    · intro _ s hs
      rw [List.suffix_nil.mp hs]
      rfl
    · intro _
      rfl
  | cons c rest ih =>
    constructor
    · intro h s hs
      unfold findTimestamp at h
      cases hm : matchTimestampAt (c :: rest) with
      | some r => rw [hm] at h; exact absurd h (by simp)
      | none =>
        rw [hm] at h
        rcases List.suffix_cons_iff.mp hs with rfl | hs2
        · exact hm
        · exact ih.mp h s hs2
    · intro hall
      unfold findTimestamp
      rw [hall (c :: rest) (List.suffix_refl _)]
      exact ih.mpr (fun s hs => hall s (hs.trans (List.suffix_cons c rest)))

/-! ### Inversion for `getCurrentLyric` -/

theorem getCurrentLyric_some_inv {st : ParserState} {t : ℚ} {m : LyricMatch}
    (h : (getCurrentLyric st t).1 = some m) :
    m.index = scanTarget t st.lyrics 0 (-1) ∧ 0 ≤ m.index ∧
    m.text = (st.lyrics.getD m.index.toNat default).text ∧
    m.time = (st.lyrics.getD m.index.toNat default).time ∧
    (getCurrentLyric st t).2 = { st with currentIndex := m.index } ∧
    m.isNew = decide (m.index ≠ st.currentIndex) := by
  unfold getCurrentLyric at h ⊢
  by_cases he : st.lyrics.isEmpty
  · rw [if_pos he] at h
    exact absurd h (by simp)
  · rw [if_neg he] at h ⊢
    simp only at h ⊢
    by_cases hge : (0 : Int) ≤ scanTarget t st.lyrics 0 (-1)
    · rw [if_pos hge] at h ⊢
      simp only [Option.some.injEq] at h
      subst h
      exact ⟨rfl, hge, rfl, rfl, rfl, rfl⟩
    · rw [if_neg hge] at h
      exact absurd h (by simp)

theorem getCurrentLyric_none_inv {st : ParserState} {t : ℚ}
    (h : (getCurrentLyric st t).1 = none) :
    (getCurrentLyric st t).2 = st := by
  unfold getCurrentLyric at h ⊢
  by_cases he : st.lyrics.isEmpty
  · rw [if_pos he]
  · rw [if_neg he] at h ⊢
    simp only at h ⊢
    by_cases hge : (0 : Int) ≤ scanTarget t st.lyrics 0 (-1)
    · rw [if_pos hge] at h
      exact absurd h (by simp)
    · rw [if_neg hge]

theorem getCurrentLyric_fst_eq (st : ParserState) (t : ℚ) :
    (getCurrentLyric st t).1 =
      if matchCount t st.lyrics = 0 then none
      else some ⟨(st.lyrics.getD (matchCount t st.lyrics - 1) default).text,
                 (st.lyrics.getD (matchCount t st.lyrics - 1) default).time,
                 (matchCount t st.lyrics : Int) - 1,
                 decide ((matchCount t st.lyrics : Int) - 1 ≠ st.currentIndex)⟩ := by
  simp only [getCurrentLyric, scanTarget_start]
  by_cases he : st.lyrics.isEmpty
  · rw [if_pos he]
    have hnil : st.lyrics = [] := List.isEmpty_iff.mp he
    rw [if_pos (by simp [hnil, matchCount])]
  · rw [if_neg he]
    by_cases hmc : matchCount t st.lyrics = 0
    · rw [if_neg (by rw [hmc]; omega), if_pos hmc]
    · rw [if_pos (by omega), if_neg hmc]
      simp only [Option.some.injEq]
      congr 2 <;> rw [show ((matchCount t st.lyrics : Int) - 1).toNat =
        matchCount t st.lyrics - 1 from by omega]

theorem getCurrentLyric_snd_eq (st : ParserState) (t : ℚ) :
    (getCurrentLyric st t).2 =
      if matchCount t st.lyrics = 0 then st
      else { st with currentIndex := (matchCount t st.lyrics : Int) - 1 } := by
  simp only [getCurrentLyric, scanTarget_start]
  by_cases he : st.lyrics.isEmpty
  · rw [if_pos he]
    have hnil : st.lyrics = [] := List.isEmpty_iff.mp he
    rw [if_pos (by simp [hnil, matchCount])]
  · rw [if_neg he]
    by_cases hmc : matchCount t st.lyrics = 0
    · rw [if_neg (by rw [hmc]; omega), if_pos hmc]
    · rw [if_pos (by omega), if_neg hmc]

/-! ### Trimming fixed points -/

theorem dropWhile_eq_self_of_all {p : Char → Bool} {l : List Char}
    (h : ∀ x ∈ l, p x = false) : l.dropWhile p = l := by
  cases l with
  | nil => rfl
  | cons a l =>
    rw [List.dropWhile_cons, h a (by simp)]
    simp

theorem jsTrim_eq_self {l : List Char} (h : ∀ x ∈ l, isJsSpace x = false) :
    jsTrim l = l := by
  unfold jsTrim
  rw [dropWhile_eq_self_of_all h,
      dropWhile_eq_self_of_all (fun x hx => h x (List.mem_reverse.mp hx)),
      List.reverse_reverse]

end ProofLayer

section Claims

attribute [local semireducible] Rat.add Rat.mul Rat.inv Rat.sub Rat.ofScientific

/-- C1: for every sorted (i.e. parsed) track and every query time `t`,
`getCurrentLyric t` returns `none` exactly when no lyric line has
time ≤ t (in particular on an empty line list); otherwise it returns
the line at the greatest index `i` with `lines[i].time ≤ t`, carrying
that line's text, time, and the index `i`. -/
theorem getCurrentLyric_greatest_le (st : ParserState) (t : ℚ)
    (hs : sortedByTime st.lyrics) :
    ((getCurrentLyric st t).1 = none ↔ ∀ l ∈ st.lyrics, t < l.time) ∧
    (∀ m, (getCurrentLyric st t).1 = some m →
      ∃ i : Nat, m.index = (i : Int) ∧ i < st.lyrics.length ∧
        m.text = (st.lyrics.getD i default).text ∧
        m.time = (st.lyrics.getD i default).time ∧
        (st.lyrics.getD i default).time ≤ t ∧
        ∀ j, i < j → j < st.lyrics.length → t < (st.lyrics.getD j default).time) := by
  rw [getCurrentLyric_fst_eq]
  by_cases hmc : matchCount t st.lyrics = 0
  · rw [if_pos hmc]
    exact ⟨iff_of_true rfl ((matchCount_eq_zero_iff hs).mp hmc),
           fun m hm => absurd hm (by simp)⟩
  · rw [if_neg hmc]
    refine ⟨iff_of_false (by simp) (fun hall => hmc ((matchCount_eq_zero_iff hs).mpr hall)), ?_⟩
    intro m hm
    rw [Option.some.injEq] at hm
    subst hm
    dsimp only
    refine ⟨matchCount t st.lyrics - 1, by omega, ?_, rfl, rfl, ?_, ?_⟩
    · have hle := matchCount_le_length t st.lyrics
      omega
    · exact time_le_of_lt_matchCount (by omega)
    · intro j hj1 hj2
      exact lt_time_of_matchCount_le hs (by omega) hj2

/-- C1 witness: on the two-line track `[a@0, b@2]` a query strictly
before the first time yields `none`. -/
theorem getCurrentLyric_greatest_le_witness :
    (getCurrentLyric ⟨[⟨0, ['a']⟩, ⟨2, ['b']⟩], [], -1⟩ (-1)).1 = none :=
  ((getCurrentLyric_greatest_le ⟨[⟨0, ['a']⟩, ⟨2, ['b']⟩], [], -1⟩ (-1)
    (by decide)).1).mpr (by decide)

/-- C2: after `parseLRC` runs on any input (the empty string returns
early, keeping the previously sorted list), the lyric list is
ascending by time, and on a real parse the lines of any fixed time
keep exactly the relative order in which they were collected from the
input. -/
theorem parseLRC_sorted_and_stable (st : ParserState) (content : List Char)
    (hst : sortedByTime st.lyrics) :
    sortedByTime (parseLRC st content).lyrics ∧
    (content ≠ [] →
      ∀ v : ℚ, (parseLRC st content).lyrics.filter (fun e => decide (e.time = v)) =
        (collectedLyrics content).filter (fun e => decide (e.time = v))) := by
  by_cases hne : content = []
  · unfold parseLRC
    rw [if_pos hne]
    exact ⟨hst, fun h => absurd hne h⟩
  · unfold parseLRC collectedLyrics
    rw [if_neg hne]
    exact ⟨sortLyrics_sorted _, fun _ v => sortLyrics_stable _ v⟩

/-- C2 witness: a concrete out-of-order two-line input parses sorted,
and the (singleton) time classes are preserved. -/
theorem parseLRC_sorted_and_stable_witness :
    sortedByTime initState.lyrics ∧
    sortedByTime (parseLRC initState (strToChars "[00:01.50]A\n[00:00.00]B")).lyrics ∧
    (parseLRC initState (strToChars "[00:01.50]A\n[00:00.00]B")).lyrics.filter
        (fun e => decide (e.time = 0)) =
      (collectedLyrics (strToChars "[00:01.50]A\n[00:00.00]B")).filter
        (fun e => decide (e.time = 0)) :=
  ⟨by decide,
   (parseLRC_sorted_and_stable initState (strToChars "[00:01.50]A\n[00:00.00]B")
     (by decide)).1,
   (parseLRC_sorted_and_stable initState (strToChars "[00:01.50]A\n[00:00.00]B")
     (by decide)).2 (by decide) 0⟩

/-- C3 counterexample: the line `[00:02.00]` is NOT parsed as a timed
lyric line with empty text — the metadata pattern matches it first
(key `00`, value `02.00`), so it becomes a metadata entry and the
lyric list stays empty. -/
theorem timestampOnly_line_not_lyric :
    ¬ ((parseLRC initState (strToChars "[00:02.00]")).lyrics = [⟨2, []⟩]) ∧
    (parseLRC initState (strToChars "[00:02.00]")).lyrics = [] ∧
    (parseLRC initState (strToChars "[00:02.00]")).metadata =
      [(['0', '0'], strToChars "02.00")] := by
  decide

/-- C3 (amended): a line that is exactly one valid timestamp tag
`[mm:ss.cc]` with nothing after it is captured by the METADATA
pattern — key `mm`, value `ss.cc` — and contributes no lyric line. -/
theorem timestampOnly_line_is_metadata (st : ParserState) (a b c d e f : Char)
    (ha : a.isDigit = true) (hb : b.isDigit = true) (hc : c.isDigit = true)
    (hd : d.isDigit = true) (he : e.isDigit = true) (hf : f.isDigit = true) :
    parseLine st ['[', a, b, ':', c, d, '.', e, f, ']'] =
      { st with metadata := setMeta st.metadata [a, b] [c, d, '.', e, f] } := by
  have hns : ∀ x ∈ ['[', a, b, ':', c, d, '.', e, f, ']'], isJsSpace x = false := by
    intro x hx
    simp only [List.mem_cons, List.not_mem_nil, or_false] at hx
    rcases hx with rfl | rfl | rfl | rfl | rfl | rfl | rfl | rfl | rfl | rfl
    · decide
    · exact isJsSpace_eq_false_of_isDigit ha
    · exact isJsSpace_eq_false_of_isDigit hb
    · decide
    · exact isJsSpace_eq_false_of_isDigit hc
    · exact isJsSpace_eq_false_of_isDigit hd
    · decide
    · exact isJsSpace_eq_false_of_isDigit he
    · exact isJsSpace_eq_false_of_isDigit hf
    · decide
  have htrim := jsTrim_eq_self hns
  have hkey : List.takeWhile isWordChar (a :: b :: ':' :: c :: d :: '.' :: e :: f :: [']']) =
      [a, b] := by
    rw [List.takeWhile_cons_of_pos (isWordChar_of_isDigit ha),
        List.takeWhile_cons_of_pos (isWordChar_of_isDigit hb),
        List.takeWhile_cons_of_neg (by decide)]
  have hdrop : List.dropWhile isWordChar (a :: b :: ':' :: c :: d :: '.' :: e :: f :: [']']) =
      ':' :: c :: d :: '.' :: e :: f :: [']'] := by
    rw [List.dropWhile_cons_of_pos (isWordChar_of_isDigit ha),
        List.dropWhile_cons_of_pos (isWordChar_of_isDigit hb),
        List.dropWhile_cons_of_neg (by decide)]
  have hmeta : matchMetadata ['[', a, b, ':', c, d, '.', e, f, ']'] =
      some ([a, b], [c, d, '.', e, f]) := by
    simp only [matchMetadata, hkey, hdrop]
    split
    · simp
    · next hfalse =>
      refine absurd ⟨by simp, rfl, by simp, by simp, ?_⟩ hfalse
      simp only [List.tail_cons, List.dropLast_cons₂, List.dropLast_single, List.all_cons,
        List.all_nil, Bool.and_true]
      rw [isRegexDot_of_isDigit hc, isRegexDot_of_isDigit hd, isRegexDot_of_isDigit he,
        isRegexDot_of_isDigit hf]
      decide
  have hval : jsTrim [c, d, '.', e, f] = [c, d, '.', e, f] := by
    apply jsTrim_eq_self
    intro x hx
    simp only [List.mem_cons, List.not_mem_nil, or_false] at hx
    rcases hx with rfl | rfl | rfl | rfl | rfl
    · exact isJsSpace_eq_false_of_isDigit hc
    · exact isJsSpace_eq_false_of_isDigit hd
    · decide
    · exact isJsSpace_eq_false_of_isDigit he
    · exact isJsSpace_eq_false_of_isDigit hf
  simp only [parseLine, htrim, hmeta, hval]
  rw [if_neg (by simp)]

/-- C3 witness: the concrete line `[00:02.00]` becomes the metadata
entry `00 ↦ 02.00` on a fresh parser. -/
theorem timestampOnly_line_is_metadata_witness :
    parseLine initState ['[', '0', '0', ':', '0', '2', '.', '0', '0', ']'] =
      { initState with
          metadata := (setMeta initState.metadata ['0', '0'] ['0', '2', '.', '0', '0']) } :=
  timestampOnly_line_is_metadata initState '0' '0' '0' '2' '0' '0'
    (by decide) (by decide) (by decide) (by decide) (by decide) (by decide)

/-- C4 counterexample: `x[00:01.00]Hi` matches neither whole-line
shape (the timestamp is not at the start of the line), yet it is NOT
dropped: the unanchored pattern matches mid-line and a lyric line is
recorded. -/
theorem unanchored_timestamp_not_dropped :
    ¬ ((parseLRC initState (strToChars "x[00:01.00]Hi")).lyrics = []) ∧
    (parseLRC initState (strToChars "x[00:01.00]Hi")).lyrics = [⟨1, ['H', 'i']⟩] := by
  decide

/-- C4 (amended): a line is dropped exactly when, after trimming, it
matches neither the whole-line metadata pattern nor — at ANY position,
the pattern being unanchored — the timestamp pattern; in particular
`plain text\n[00:02.00]Line` yields exactly one lyric line. -/
theorem unmatched_line_dropped :
    (∀ (st : ParserState) (line : List Char),
        matchMetadata (jsTrim line) = none →
        (∀ s : List Char, s <:+ jsTrim line → matchTimestampAt s = none) →
        parseLine st line = st) ∧
    (parseLRC initState (strToChars "plain text\n[00:02.00]Line")).lyrics =
      [⟨2, strToChars "Line"⟩] := by
  constructor
  · intro st line h1 h2
    simp only [parseLine]
    by_cases ht : jsTrim line = []
    · rw [if_pos ht]
    · rw [if_neg ht, h1, findTimestamp_eq_none_iff.mpr h2]
  · decide

/-- C4 witness: the literal line `plain text` contributes nothing. -/
theorem unmatched_line_dropped_witness :
    parseLine initState (strToChars "plain text") = initState :=
  unmatched_line_dropped.1 initState (strToChars "plain text") (by decide)
    (findTimestamp_eq_none_iff.mp (by decide))

/-- C5 counterexample: on the EMPTY string the falsy guard of
`parseLRC` returns early, so a pre-existing cursor value survives —
the cursor is not reset to -1. -/
theorem parseLRC_empty_keeps_cursor :
    ¬ ((parseLRC ⟨[], [], 5⟩ (strToChars "")).currentIndex = -1) := by
  decide

/-- C5 (amended): `parseLRC` is a total function (never raises); every
parse of a NON-empty input resets the cursor to -1, while the empty
string returns early leaving the whole state unchanged. -/
theorem parseLRC_resets_cursor (st : ParserState) (content : List Char) :
    (content ≠ [] → (parseLRC st content).currentIndex = -1) ∧
    (content = [] → parseLRC st content = st) := by
  constructor
  · intro hne
    unfold parseLRC
    rw [if_neg hne]
    exact foldl_parseLine_currentIndex (splitLines content) initState
  · intro he
    unfold parseLRC
    rw [if_pos he]

/-- C5 witness: a non-empty parse resets a stale cursor. -/
theorem parseLRC_resets_cursor_witness :
    strToChars "[00:01.00]A" ≠ [] ∧
    (parseLRC ⟨[], [], 7⟩ (strToChars "[00:01.00]A")).currentIndex = -1 :=
  ⟨by decide, (parseLRC_resets_cursor ⟨[], [], 7⟩ (strToChars "[00:01.00]A")).1 (by decide)⟩

/-- C6: a second query resolving to the index just stored yields
`isNew = false`; a query resolving to an index different from the
stored cursor yields `isNew = true` and writes that index to the
cursor. -/
theorem isNew_change_detection (st : ParserState) (t1 t2 : ℚ) :
    (∀ m1 m2, (getCurrentLyric st t1).1 = some m1 →
        (getCurrentLyric (getCurrentLyric st t1).2 t2).1 = some m2 →
        m2.index = m1.index → m2.isNew = false) ∧
    (∀ m, (getCurrentLyric st t1).1 = some m → m.index ≠ st.currentIndex →
        m.isNew = true ∧ (getCurrentLyric st t1).2.currentIndex = m.index) := by
  constructor
  · intro m1 m2 h1 h2 heq
    obtain ⟨-, -, -, -, hst1, -⟩ := getCurrentLyric_some_inv h1
    obtain ⟨-, -, -, -, -, hnew2⟩ := getCurrentLyric_some_inv h2
    rw [hst1] at hnew2
    rw [hnew2, heq]
    simp
  · intro m h hne
    obtain ⟨-, -, -, -, hst, hnew⟩ := getCurrentLyric_some_inv h
    constructor
    · rw [hnew]
      simp [hne]
    · rw [hst]

/-- C6 witness: querying the one-line track twice at the same time
resolves to index 0 with `isNew` true then false. -/
theorem isNew_change_detection_witness :
    (getCurrentLyric ⟨[⟨0, ['a']⟩], [], -1⟩ 0).1 = some ⟨['a'], 0, 0, true⟩ ∧
    (getCurrentLyric (getCurrentLyric ⟨[⟨0, ['a']⟩], [], -1⟩ 0).2 0).1 =
      some ⟨['a'], 0, 0, false⟩ ∧
    LyricMatch.isNew ⟨['a'], 0, 0, false⟩ = false :=
  ⟨by decide, by decide,
   (isNew_change_detection ⟨[⟨0, ['a']⟩], [], -1⟩ 0 0).1 ⟨['a'], 0, 0, true⟩
     ⟨['a'], 0, 0, false⟩ (by decide) (by decide) rfl⟩

/-- C7: presence, text, time and index of the query result depend only
on the lyric list and the query time — never on the stored cursor or
the metadata; only the `isNew` flag can differ between two runs. -/
theorem query_result_cursor_independent (lyrics : List LyricLine)
    (meta1 meta2 : Metadata) (ci1 ci2 : Int) (t : ℚ) :
    ((getCurrentLyric ⟨lyrics, meta1, ci1⟩ t).1).map resolved =
      ((getCurrentLyric ⟨lyrics, meta2, ci2⟩ t).1).map resolved := by
  simp only [getCurrentLyric_fst_eq]
  by_cases hmc : matchCount t lyrics = 0
  · rw [if_pos hmc, if_pos hmc]
  · rw [if_neg hmc, if_neg hmc]
    simp [resolved]

/-- C9: a fetch failure (network error or non-OK HTTP status) is
caught: `loadFromURL` returns `false`, clears the whole track state,
and every subsequent query returns `none`. -/
theorem loadFromURL_failure_clears (st : ParserState) (o : FetchOutcome)
    (hf : o.isFailure = true) :
    (loadFromURL st o).1 = false ∧
    (loadFromURL st o).2.lyrics = [] ∧
    (loadFromURL st o).2.metadata = [] ∧
    (loadFromURL st o).2.currentIndex = -1 ∧
    ∀ t : ℚ, (getCurrentLyric (loadFromURL st o).2 t).1 = none := by
  cases o with
  | netError => exact ⟨rfl, rfl, rfl, rfl, fun t => rfl⟩
  | response ok body =>
    cases ok
    · exact ⟨rfl, rfl, rfl, rfl, fun t => rfl⟩
    · simp [FetchOutcome.isFailure] at hf

/-- C9 witness: a network error on a populated track clears it and the
next query returns `none`. -/
theorem loadFromURL_failure_clears_witness :
    (loadFromURL ⟨[⟨0, ['a']⟩], [(['a'], ['b'])], 0⟩ .netError).1 = false ∧
    (getCurrentLyric (loadFromURL ⟨[⟨0, ['a']⟩], [(['a'], ['b'])], 0⟩ .netError).2 0).1 =
      none := by
  have h := loadFromURL_failure_clears ⟨[⟨0, ['a']⟩], [(['a'], ['b'])], 0⟩ .netError
    (by decide)
  exact ⟨h.1, h.2.2.2.2 0⟩

/-- C8: for every in-range timestamp triple `(mm, ss, cc)` written as
two digits each, parsing the timed line `[mm:ss.cc]X` records exactly
the time `mm * 60 + ss + cc / 100`, as exact rational arithmetic. -/
theorem parse_records_exact_time (st : ParserState) (mm ss cc : Nat)
    (hm : mm < 100) (hs : ss < 100) (hc : cc < 100) :
    parseLine st
        ('[' :: twoDigits mm ++ ':' :: twoDigits ss ++ '.' :: twoDigits cc ++ [']', 'X']) =
      { st with lyrics := st.lyrics ++
          [⟨(mm : ℚ) * 60 + (ss : ℚ) + (cc : ℚ) / 100, ['X']⟩] } := by
  have h1 : (Nat.digitChar (mm / 10)).isDigit = true := digitChar_isDigit (by omega)
  have h2 : (Nat.digitChar (mm % 10)).isDigit = true :=
    digitChar_isDigit (Nat.mod_lt _ (by omega))
  have h3 : (Nat.digitChar (ss / 10)).isDigit = true := digitChar_isDigit (by omega)
  have h4 : (Nat.digitChar (ss % 10)).isDigit = true :=
    digitChar_isDigit (Nat.mod_lt _ (by omega))
  have h5 : (Nat.digitChar (cc / 10)).isDigit = true := digitChar_isDigit (by omega)
  have h6 : (Nat.digitChar (cc % 10)).isDigit = true :=
    digitChar_isDigit (Nat.mod_lt _ (by omega))
  simp only [twoDigits, List.cons_append, List.nil_append]
  have hns : ∀ x ∈ ('[' :: Nat.digitChar (mm / 10) :: Nat.digitChar (mm % 10) :: ':' ::
      Nat.digitChar (ss / 10) :: Nat.digitChar (ss % 10) :: '.' ::
      Nat.digitChar (cc / 10) :: Nat.digitChar (cc % 10) :: ']' :: ['X']),
      isJsSpace x = false := by
    intro x hx
    simp only [List.mem_cons, List.not_mem_nil, or_false] at hx
    rcases hx with rfl | rfl | rfl | rfl | rfl | rfl | rfl | rfl | rfl | rfl | rfl
    · decide
    · exact isJsSpace_eq_false_of_isDigit h1
    · exact isJsSpace_eq_false_of_isDigit h2
    · decide
    · exact isJsSpace_eq_false_of_isDigit h3
    · exact isJsSpace_eq_false_of_isDigit h4
    · decide
    · exact isJsSpace_eq_false_of_isDigit h5
    · exact isJsSpace_eq_false_of_isDigit h6
    · decide
    · decide
  have htrim := jsTrim_eq_self hns
  have hdrop : List.dropWhile isWordChar (Nat.digitChar (mm / 10) :: Nat.digitChar (mm % 10) ::
      ':' :: Nat.digitChar (ss / 10) :: Nat.digitChar (ss % 10) :: '.' ::
      Nat.digitChar (cc / 10) :: Nat.digitChar (cc % 10) :: ']' :: ['X']) =
      ':' :: Nat.digitChar (ss / 10) :: Nat.digitChar (ss % 10) :: '.' ::
      Nat.digitChar (cc / 10) :: Nat.digitChar (cc % 10) :: ']' :: ['X'] := by
    rw [List.dropWhile_cons_of_pos (isWordChar_of_isDigit h1),
        List.dropWhile_cons_of_pos (isWordChar_of_isDigit h2),
        List.dropWhile_cons_of_neg (by decide)]
  have hmeta : matchMetadata ('[' :: Nat.digitChar (mm / 10) :: Nat.digitChar (mm % 10) ::
      ':' :: Nat.digitChar (ss / 10) :: Nat.digitChar (ss % 10) :: '.' ::
      Nat.digitChar (cc / 10) :: Nat.digitChar (cc % 10) :: ']' :: ['X']) = none := by
    simp only [matchMetadata, hdrop]
    split
    · next htrue =>
      obtain ⟨-, -, -, hlast, -⟩ := htrue
      simp at hlast
    · rfl
  have hts : matchTimestampAt ('[' :: Nat.digitChar (mm / 10) :: Nat.digitChar (mm % 10) ::
      ':' :: Nat.digitChar (ss / 10) :: Nat.digitChar (ss % 10) :: '.' ::
      Nat.digitChar (cc / 10) :: Nat.digitChar (cc % 10) :: ']' :: ['X']) =
      some ([Nat.digitChar (mm / 10), Nat.digitChar (mm % 10)],
            [Nat.digitChar (ss / 10), Nat.digitChar (ss % 10)],
            [Nat.digitChar (cc / 10), Nat.digitChar (cc % 10)], ['X']) := by
    simp only [matchTimestampAt]
    split
    · rfl
    · next hfalse => exact absurd ⟨h1, h2, h3, h4, h5, h6, by decide⟩ hfalse
  have hfind : findTimestamp ('[' :: Nat.digitChar (mm / 10) :: Nat.digitChar (mm % 10) ::
      ':' :: Nat.digitChar (ss / 10) :: Nat.digitChar (ss % 10) :: '.' ::
      Nat.digitChar (cc / 10) :: Nat.digitChar (cc % 10) :: ']' :: ['X']) =
      some ([Nat.digitChar (mm / 10), Nat.digitChar (mm % 10)],
            [Nat.digitChar (ss / 10), Nat.digitChar (ss % 10)],
            [Nat.digitChar (cc / 10), Nat.digitChar (cc % 10)], ['X']) := by
    simp only [findTimestamp, hts]
  have hpt : parseTimeToSeconds [Nat.digitChar (mm / 10), Nat.digitChar (mm % 10)]
      [Nat.digitChar (ss / 10), Nat.digitChar (ss % 10)]
      [Nat.digitChar (cc / 10), Nat.digitChar (cc % 10)] =
      (mm : ℚ) * 60 + (ss : ℚ) + (cc : ℚ) / 100 := by
    unfold parseTimeToSeconds
    rw [show [Nat.digitChar (mm / 10), Nat.digitChar (mm % 10)] = twoDigits mm from rfl,
        show [Nat.digitChar (ss / 10), Nat.digitChar (ss % 10)] = twoDigits ss from rfl,
        show [Nat.digitChar (cc / 10), Nat.digitChar (cc % 10)] = twoDigits cc from rfl,
        parseDigits_twoDigits hm, parseDigits_twoDigits hs, parseDigits_twoDigits hc]
  simp only [parseLine, htrim, hmeta, hfind, hpt]
  rw [if_neg (by simp), show jsTrim ['X'] = ['X'] from by decide]

/-- C8 witness: the tag `[01:30.50]` records time 181/2 = 90.5 s. -/
theorem parse_records_exact_time_witness :
    parseLine initState
        ('[' :: twoDigits 1 ++ ':' :: twoDigits 30 ++ '.' :: twoDigits 50 ++ [']', 'X']) =
      { initState with lyrics := initState.lyrics ++
          [⟨(1 : ℚ) * 60 + (30 : ℚ) + (50 : ℚ) / 100, ['X']⟩] } :=
  parse_records_exact_time initState 1 30 50 (by decide) (by decide) (by decide)

/-- C10: a query never changes the lyric list or the metadata map; the
only state it may write is the cursor, and a query returning `none`
changes nothing at all. -/
theorem getCurrentLyric_frame (st : ParserState) (t : ℚ) :
    (getCurrentLyric st t).2.lyrics = st.lyrics ∧
    (getCurrentLyric st t).2.metadata = st.metadata ∧
    ((getCurrentLyric st t).1 = none → (getCurrentLyric st t).2 = st) := by
  refine ⟨?_, ?_, getCurrentLyric_none_inv⟩
  · rw [getCurrentLyric_snd_eq]
    split <;> rfl
  · rw [getCurrentLyric_snd_eq]
    split <;> rfl

/-- C10 witness: a `none` query (time before the first line) leaves
the state untouched. -/
theorem getCurrentLyric_frame_witness :
    (getCurrentLyric ⟨[⟨1, ['a']⟩], [], -1⟩ 0).2 = ⟨[⟨1, ['a']⟩], [], -1⟩ :=
  (getCurrentLyric_frame ⟨[⟨1, ['a']⟩], [], -1⟩ 0).2.2 (by decide)

end Claims

end GiftSite
